import Mathlib

/-!
# A shallow embedding of the `destination-kit` core

This file embeds the destination runtime of `src/lib/destination-kit/index.ts`
(class `Destination` with `onEvent`, `onSubscription`, `testCredentials`, and the
helpers `getSubscriptions`, `getDestinationSettings`, `instrumentSubscription`)
together with the `Context` subscription log of `src/lib/context.ts`, and proves
the stated properties of that code.

Modelling conventions:
* JSON values are the inductive `JSON`; JS objects are association lists with
  unique keys by convention, property lookup takes the first binding.
* JSON numbers are modelled as integers; no claim below depends on non-integer
  numerics.
* The JS builtins `JSON.stringify` / `JSON.parse` are modelled by a canonical
  serializer and a parser for the whitespace-free encoding the serializer
  emits (which is exactly what `JSON.stringify` produces); the parser also
  accepts the shorthand escapes `JSON.parse` accepts.
* Stateful behaviour (the `Context` subscription log, the concurrent fan-out of
  `Promise.all`, HTTP probes) is embedded by explicit state passing: `onEvent`
  returns the result together with the final log, and takes a `schedule`
  argument giving the completion order of the concurrently launched
  subscription tasks; `testCredentials` returns the result together with the
  number of credential-probe requests issued.
* Failures (`throw`) are embedded with `Except DKError`; `DKError` separates
  the distinct JS error classes the source can raise (`BadRequest` from
  `http-errors`, plain `Error`, `TypeError`, `SyntaxError`, and the structured
  validation error of the `Validate` step).
-/

namespace SegmentCore

/-- A JSON value, as produced by `JSON.parse` and consumed by the runtime.
Numbers are modelled as integers. -/
inductive JSON where
  | null
  | bool (b : Bool)
  | num (n : Int)
  | str (s : String)
  | arr (elems : List JSON)
  | obj (fields : List (String × JSON))

/-- Mirrors the `JSONObject` type of `json-object.ts`: a JS object, as an
association list of properties in insertion order (keys unique by
construction in JS; lookup takes the first binding). -/
abbrev JSONObject := List (String × JSON)

/-- Mirrors the `JSONArray` type of `json-object.ts`. -/
abbrev JSONArray := List JSON

/-- JS property lookup `o[k]` on an object: `none` plays the role of
the JS `undefined`. -/
def jlookup (k : String) : JSONObject → Option JSON
  | [] => none
  | (k2, v) :: rest => if k2 = k then some v else jlookup k rest

/-- JS property access `v.k` on an arbitrary non-null value: objects look the
property up, every other value has no such property (`undefined`). Access on
`null` throws in JS and is handled at the call sites. -/
def jget (v : JSON) (k : String) : Option JSON :=
  match v with
  | .obj fields => jlookup k fields
  | _ => none

/-- Digit characters of a positive natural number, most significant first
(`fuel` bounds the digit count; `fuel ≥ n` always suffices). -/
def natEmitAux : Nat → Nat → List Char
  | 0, _ => []
  | fuel + 1, n => if n = 0 then [] else natEmitAux fuel (n / 10) ++ [Nat.digitChar (n % 10)]

/-- The decimal digits of a natural number. -/
def natEmit (n : Nat) : List Char :=
  if n = 0 then ['0'] else natEmitAux n n

/-- The canonical decimal rendering of an integer. -/
def intEmit (n : Int) : List Char :=
  if n < 0 then '-' :: natEmit n.natAbs else natEmit n.toNat

mutual

/-- JS `ToString` of a value, as used when a value is coerced to a property
key (`this.partnerActions[actionSlug]`). Arrays join their elements with
commas as `Array.prototype.toString` does. -/
def jsToString : JSON → String
  | .null => "null"
  | .bool b => cond b "true" "false"
  | .num n => ⟨intEmit n⟩
  | .str s => s
  | .arr xs => jsToStringElems xs
  | .obj _ => "[object Object]"

/-- `Array.prototype.join` with the default comma separator. -/
def jsToStringElems : List JSON → String
  | [] => ""
  | [x] => jsToStringElem x
  | x :: y :: xs => jsToStringElem x ++ "," ++ jsToStringElems (y :: xs)

/-- One array element under `Array.prototype.join`: `null` renders as the
empty string, everything else as its `ToString`. -/
def jsToStringElem : JSON → String
  | .null => ""
  | .bool b => cond b "true" "false"
  | .num n => ⟨intEmit n⟩
  | .str s => s
  | .arr xs => jsToStringElems xs
  | .obj _ => "[object Object]"

end

/-- The property key a JS value coerces to; `undefined` coerces to the string
"undefined". -/
def propertyKey : Option JSON → String
  | none => "undefined"
  | some v => jsToString v

/-- The hexadecimal digit character for `n < 16` (lower case, as
`JSON.stringify` emits). -/
def hexDigitChar (n : Nat) : Char :=
  if n < 10 then Char.ofNat ('0'.toNat + n) else Char.ofNat ('a'.toNat + (n - 10))

/-- The escaped form of one character inside a JSON string literal: `"` and
`\` get a backslash escape, control characters become `\u00XX`, everything
else stands for itself. -/
def escapeChar (c : Char) : List Char :=
  if c = '"' then ['\\', '"']
  else if c = '\\' then ['\\', '\\']
  else if c.toNat < 32 then
    '\\' :: 'u' :: '0' :: '0' :: hexDigitChar (c.toNat / 16) :: [hexDigitChar (c.toNat % 16)]
  else [c]

/-- The body of a JSON string literal for the given characters. -/
def escapeChars : List Char → List Char
  | [] => []
  | c :: cs => escapeChar c ++ escapeChars cs

/-- A complete JSON string literal (quotes included) for a string. -/
def emitString (s : String) : List Char :=
  '"' :: (escapeChars s.data ++ ['"'])

mutual

/-- The characters `JSON.stringify` produces for a value: the canonical
whitespace-free JSON encoding. -/
def JSON.emit : JSON → List Char
  | .null => "null".data
  | .bool true => "true".data
  | .bool false => "false".data
  | .num n => intEmit n
  | .str s => emitString s
  | .arr xs => '[' :: JSON.emitElems xs
  | .obj fs => '\x7b' :: JSON.emitMembers fs

/-- Array elements followed by the closing bracket. -/
def JSON.emitElems : List JSON → List Char
  | [] => [']']
  | x :: xs => JSON.emit x ++ JSON.emitTail xs

/-- Remaining array elements, each preceded by a comma, then the closing
bracket. -/
def JSON.emitTail : List JSON → List Char
  | [] => [']']
  | x :: xs => ',' :: (JSON.emit x ++ JSON.emitTail xs)

/-- Object members followed by the closing brace. -/
def JSON.emitMembers : List (String × JSON) → List Char
  | [] => ['\x7d']
  | (k, v) :: fs => emitString k ++ ':' :: (JSON.emit v ++ JSON.emitMembersTail fs)

/-- Remaining object members, each preceded by a comma, then the closing
brace. -/
def JSON.emitMembersTail : List (String × JSON) → List Char
  | [] => ['\x7d']
  | (k, v) :: fs => ',' :: (emitString k ++ ':' :: (JSON.emit v ++ JSON.emitMembersTail fs))

end

/-- `JSON.stringify`, modelled as the canonical encoder above. -/
def JSON.stringify (j : JSON) : String := ⟨JSON.emit j⟩

/-- The numeric value of a hexadecimal digit character, if it is one. -/
def hexVal (c : Char) : Option Nat :=
  if '0' ≤ c ∧ c ≤ '9' then some (c.toNat - '0'.toNat)
  else if 'a' ≤ c ∧ c ≤ 'f' then some (c.toNat - 'a'.toNat + 10)
  else if 'A' ≤ c ∧ c ≤ 'F' then some (c.toNat - 'A'.toNat + 10)
  else none

/-- The decimal value of a digit character. -/
def digitVal (c : Char) : Nat := c.toNat - '0'.toNat

/-- Reads a nonempty run of decimal digits from the front of the input. -/
def pNat (l : List Char) : Option (Nat × List Char) :=
  let ds := l.takeWhile Char.isDigit
  if ds.isEmpty then none
  else some (ds.foldl (fun a c => a * 10 + digitVal c) 0, l.dropWhile Char.isDigit)

/-- Reads a JSON number (an optional minus sign and digits). -/
def pNumber (l : List Char) : Option (JSON × List Char) :=
  match l with
  | [] => none
  | c :: rest =>
    if c = '-' then (pNat rest).map (fun p => (JSON.num (-(p.1 : Int)), p.2))
    else (pNat (c :: rest)).map (fun p => (JSON.num (p.1 : Int), p.2))

/-- Consumes an expected literal run of characters. -/
def expectChars : List Char → List Char → Option (List Char)
  | [], l => some l
  | _ :: _, [] => none
  | c :: cs, x :: xs => if x = c then expectChars cs xs else none

/-- Reads the body of a JSON string literal after the opening quote, decoding
the escapes `JSON.parse` accepts, up to and including the closing quote.
Raw control characters are refused, as in JSON. -/
def pStringChars : List Char → Option (List Char × List Char)
  | [] => none
  | c :: rest =>
    if c = '"' then some ([], rest)
    else if c = '\\' then
      match rest with
      | [] => none
      | e :: rest2 =>
        if e = '"' then (pStringChars rest2).map (fun p => ('"' :: p.1, p.2))
        else if e = '\\' then (pStringChars rest2).map (fun p => ('\\' :: p.1, p.2))
        else if e = '/' then (pStringChars rest2).map (fun p => ('/' :: p.1, p.2))
        else if e = 'b' then (pStringChars rest2).map (fun p => ('\x08' :: p.1, p.2))
        else if e = 'f' then (pStringChars rest2).map (fun p => ('\x0c' :: p.1, p.2))
        else if e = 'n' then (pStringChars rest2).map (fun p => ('\n' :: p.1, p.2))
        else if e = 'r' then (pStringChars rest2).map (fun p => ('\x0d' :: p.1, p.2))
        else if e = 't' then (pStringChars rest2).map (fun p => ('\t' :: p.1, p.2))
        else if e = 'u' then
          match rest2 with
          | a :: b :: c2 :: d :: rest3 =>
            match hexVal a, hexVal b, hexVal c2, hexVal d with
            | some va, some vb, some vc, some vd =>
              let v := ((va * 16 + vb) * 16 + vc) * 16 + vd
              if v.isValidChar then
                (pStringChars rest3).map (fun p => (Char.ofNat v :: p.1, p.2))
              else none
            | _, _, _, _ => none
          | _ => none
        else none
    else if c.toNat < 32 then none
    else (pStringChars rest).map (fun p => (c :: p.1, p.2))

mutual

/-- Reads one JSON value from the front of the input (fuelled recursion; the
fuel only bounds nesting work and is irrelevant once large enough),
dispatching on the first character as `JSON.parse` does. -/
def pValue : Nat → List Char → Option (JSON × List Char)
  | 0, _ => none
  | fuel + 1, l =>
    match l with
    | [] => none
    | c :: rest =>
      if c = 'n' then (expectChars ['u', 'l', 'l'] rest).map (fun r => (JSON.null, r))
      else if c = 't' then (expectChars ['r', 'u', 'e'] rest).map (fun r => (JSON.bool true, r))
      else if c = 'f' then
        (expectChars ['a', 'l', 's', 'e'] rest).map (fun r => (JSON.bool false, r))
      else if c = '"' then (pStringChars rest).map (fun p => (JSON.str ⟨p.1⟩, p.2))
      else if c = '[' then (pElems fuel rest).map (fun p => (JSON.arr p.1, p.2))
      else if c = '\x7b' then (pMembers fuel rest).map (fun p => (JSON.obj p.1, p.2))
      else if c = '-' ∨ c.isDigit then pNumber (c :: rest)
      else none

/-- Reads the elements of an array after the opening bracket, through the
closing bracket. -/
def pElems : Nat → List Char → Option (List JSON × List Char)
  | 0, _ => none
  | fuel + 1, l =>
    if l.head? = some ']' then some ([], l.tail)
    else do
      let (j, r) ← pValue fuel l
      let (js, r2) ← pElemsTail fuel r
      pure (j :: js, r2)

/-- Reads the remaining elements of an array, each preceded by a comma,
through the closing bracket. -/
def pElemsTail : Nat → List Char → Option (List JSON × List Char)
  | 0, _ => none
  | fuel + 1, l =>
    if l.head? = some ']' then some ([], l.tail)
    else if l.head? = some ',' then do
      let (j, r) ← pValue fuel l.tail
      let (js, r2) ← pElemsTail fuel r
      pure (j :: js, r2)
    else none

/-- Reads the members of an object after the opening brace, through the
closing brace. -/
def pMembers : Nat → List Char → Option (List (String × JSON) × List Char)
  | 0, _ => none
  | fuel + 1, l =>
    if l.head? = some '\x7d' then some ([], l.tail)
    else if l.head? = some '"' then do
      let (ks, r) ← pStringChars l.tail
      if r.head? = some ':' then do
        let (v, r3) ← pValue fuel r.tail
        let (fs, r4) ← pMembersTail fuel r3
        pure ((⟨ks⟩, v) :: fs, r4)
      else none
    else none

/-- Reads the remaining members of an object, each preceded by a comma,
through the closing brace. -/
def pMembersTail : Nat → List Char → Option (List (String × JSON) × List Char)
  | 0, _ => none
  | fuel + 1, l =>
    if l.head? = some '\x7d' then some ([], l.tail)
    else if l.head? = some ',' then
      if l.tail.head? = some '"' then do
        let (ks, r) ← pStringChars l.tail.tail
        if r.head? = some ':' then do
          let (v, r3) ← pValue fuel r.tail
          let (fs, r4) ← pMembersTail fuel r3
          pure ((⟨ks⟩, v) :: fs, r4)
        else none
      else none
    else none

end

/-- `JSON.parse`, for the canonical whitespace-free encodings that
`JSON.stringify` emits: `none` models a thrown `SyntaxError`. The input must
be one complete value. -/
def JSON.parse (s : String) : Option JSON :=
  match pValue (s.length + 1) s.data with
  | some (j, []) => some j
  | _ => none

mutual

/-- The recursion fuel `pValue` needs to read back an emitted value (a proof
device only; always at most the length of the emitted text). -/
def costV : JSON → Nat
  | .null => 1
  | .bool _ => 1
  | .num _ => 1
  | .str _ => 1
  | .arr xs => 1 + costL xs
  | .obj fs => 1 + costM fs

/-- The fuel `pElems`/`pElemsTail` need for an emitted element list. -/
def costL : List JSON → Nat
  | [] => 1
  | x :: xs => 1 + max (costV x) (costL xs)

/-- The fuel `pMembers`/`pMembersTail` need for an emitted member list. -/
def costM : List (String × JSON) → Nat
  | [] => 1
  | (_, v) :: fs => 1 + max (costV v) (costM fs)

end

/-- The result of one executed step (`step.ts`, shape per spec §3: a
JSON-serializable `output`, with the literal string `"not subscribed"` as the
skip marker). -/
structure StepResult where
  output : JSON

/-- The execution input handed to a step pipeline (`step.ts`): the payload
(initially the raw event), the subscription's optional mapping template, and
the destination-level settings, as constructed at `index.ts` lines 152-161
and 91. -/
structure ExecuteInput where
  payload : JSON
  mapping : Option JSON
  settings : JSONObject

/-- One entry of the `Context` subscription log: the `Subscriptions` interface
of `context.ts`. -/
structure Subscriptions where
  duration : Nat
  destination : String
  action : String
  input : ExecuteInput
  output : List StepResult

/-- The `Context` state the claims are about: its append-only
`fields.subscriptions` log (`context.ts`). The scalar request-metadata fields
play no part in the verified properties and are omitted. -/
abbrev Context := List Subscriptions

/-- `instrumentSubscription` (`index.ts` lines 43-51): appends one entry to
the context's subscription log via `context.append`. -/
def instrumentSubscription (context : Context) (input : Subscriptions) : Context :=
  context ++ [input]

/-- The distinct error classes the embedded code can throw: `BadRequest` from
`http-errors` (unregistered action slug), JS `TypeError` (property access on
`null`, `.map` on a non-array), JS `SyntaxError` (`JSON.parse` failure), the
structured validation error of the `Validate` step, a plain
`new Error(message)`, and a network/transport failure. -/
inductive DKError where
  | badRequest (message : String)
  | typeError (message : String)
  | syntaxError (message : String)
  | validationError (violations : List String)
  | genericError (message : String)
  | requestError (message : String)
deriving DecidableEq

/-- Modelled from the spec: an `Action` (`action.ts`, not under `src/`).
Design note §9: "model as a mapping from slug to an opaque polymorphic
Action value (interface/trait with an `execute(ExecuteInput) -> StepResult[]`
method)"; its pipeline either yields the ordered step results or raises. -/
structure Action where
  execute : ExecuteInput → Except DKError (List StepResult)

/-- The composed outgoing request configuration built by `got.extend`
(`index.ts` lines 102-112): retry/timeout options and headers. -/
structure RequestConfig where
  retryLimit : Nat
  timeoutMs : Nat
  headers : List (String × Option String)

/-- The base request of `testCredentials`: `retry: 0, timeout: 3000` and the
`user-agent` header unset (`index.ts` lines 102-108). -/
def baseRequest : RequestConfig :=
  { retryLimit := 0, timeoutMs := 3000, headers := [("user-agent", none)] }

/-- A request extension (`action.ts` `Extensions`, spec §4.3): a function from
the execution context to a transformation of the request configuration,
folded left-to-right over the base request. -/
abbrev RequestExtension := ExecuteInput → RequestConfig → RequestConfig

/-- The caller-supplied credential probe (`TestAuthOptions`, `index.ts` lines
35-37): given the composed request and the settings, it either succeeds or
fails (a rejected request). -/
structure TestAuthOptions where
  testCredentials : RequestConfig → JSONObject → Except DKError Unit

/-- `TestAuth` (`index.ts` lines 30-33). -/
structure TestAuth where
  type : String
  options : TestAuthOptions

/-- The `Destination` state (`index.ts` lines 53-69) after its fluent builders
(`validateSettings`, `apiKeyAuth`, `partnerAction`, `extendRequest`) have
run: the builders only set these fields. The JSON-schema value of
`settingsSchema` is modelled by its violation function (spec §1: core only
needs `validate(schema, value) -> list of violations` from the external
validation library). -/
structure Destination where
  name : String
  defaultSubscriptions : JSONArray
  partnerActions : List (String × Action)
  requestExtensions : List RequestExtension
  settingsSchema : Option (JSONObject → List String)
  auth : Option TestAuth

/-- Lookup in the string-keyed action registry `this.partnerActions`. -/
def registryLookup (k : String) : List (String × Action) → Option Action
  | [] => none
  | (k2, a) :: rest => if k2 = k then some a else registryLookup k rest

/-- Modelled from the spec: the external subscription predicate evaluator
(`validate` from `@segment/fab5-subscriptions`, not part of this repository).
Spec §4.1: `matches(predicate, event) -> bool`, failing closed on malformed
predicates. The claims below depend only on its boolean verdict, so it is
modelled as the typed `type`-equality predicate, answering `false` on any
other shape. -/
def validate (predicate : Option JSON) (event : JSONObject) : Bool :=
  match predicate with
  | some (.obj fields) =>
    match jlookup "type" fields with
    | some (.str t) =>
      match jlookup "type" event with
      | some (.str et) => et == t
      | _ => false
    | _ => false
  | _ => false

/-- Modelled from the spec: the `Validate` step of `action.ts` (not under
`src/`). Spec §4.5: it "applies JSON-Schema validation to `settings` or
`payload` and raises a structured validation error (listing all violations,
not just the first) on failure", halting the pipeline; here applied to the
settings target as `testCredentials` does. -/
def validateStep (schema : JSONObject → List String) (input : ExecuteInput) :
    Except DKError Unit :=
  match schema input.settings with
  | [] => .ok ()
  | v :: vs => .error (.validationError (v :: vs))

/-- The fixed placeholder that replaces a private value. -/
def redactPlaceholder : JSON := .str "<redacted>"

/-- Modelled from the spec: `redactSettings` of `redact.ts` (not under
`src/`). Spec §6: "a list of field keys marked private must be redacted
(replaced with a fixed placeholder) before any instrumentation record is
persisted." Keys listed in `privateSettings` have their value replaced;
everything else is untouched. -/
def redactSettings (settings : JSONObject) (privateSettings : JSONArray) : JSONObject :=
  settings.map (fun kv =>
    if privateSettings.any (fun p => match p with | .str s => s == kv.1 | _ => false)
    then (kv.1, redactPlaceholder) else kv)

/-- The credential probe half of `testCredentials` (`index.ts` lines 98-118):
nothing to do without configured auth; otherwise the probe runs against the
extension-decorated base request, and any probe failure is caught and
replaced by the generic `Error('Credentials are invalid')`. The second
component counts probe requests issued. -/
def Destination.probeCredentials (d : Destination) (context : ExecuteInput)
    (settings : JSONObject) : Except DKError Unit × Nat :=
  match d.auth with
  | none => (.ok (), 0)
  | some auth =>
    let request := d.requestExtensions.foldl (fun r ext => ext context r) baseRequest
    match auth.options.testCredentials request settings with
    | .ok _ => (.ok (), 1)
    | .error _ => (.error (.genericError "Credentials are invalid"), 1)

/-- `Destination.testCredentials` (`index.ts` lines 90-119): run the settings
`Validate` step when a schema is configured (its failure is *not* caught),
then the credential probe. Returns the outcome and the number of probe
requests issued. -/
def Destination.testCredentials (d : Destination) (settings : JSONObject) :
    Except DKError Unit × Nat :=
  let context : ExecuteInput := { payload := .obj [], mapping := none, settings := settings }
  match d.settingsSchema with
  | some schema =>
    match validateStep schema context with
    | .error e => (.error e, 0)
    | .ok _ => d.probeCredentials context settings
  | none => d.probeCredentials context settings

/-- `Destination.onSubscription` (`index.ts` lines 132-180). The subscription
value is the raw JSON the unchecked cast of `getSubscriptions` lets through;
property access on `null` throws a `TypeError` as in JS. A non-matching
predicate short-circuits to the single `"not subscribed"` result; an
unregistered slug throws `BadRequest`; a pipeline failure propagates.
On success the instrumentation entry (with the settings redacted) that
`instrumentSubscription` appends is returned alongside the results; failing
paths return before instrumenting. The wall clock (`time`/`duration`, not
under `src/`) is modelled as constant, so `duration` is `0`. -/
def Destination.onSubscription (d : Destination) (subscription : JSON)
    (event : JSONObject) (settings : JSONObject) (privateSettings : JSONArray) :
    Except DKError (List StepResult × Option Subscriptions) :=
  match subscription with
  | .null => .error (.typeError "Cannot read properties of null")
  | _ =>
    let isSubscribed := validate (jget subscription "subscribe") event
    if !isSubscribed then
      .ok ([{ output := .str "not subscribed" }], none)
    else
      let actionSlug := propertyKey (jget subscription "partnerAction")
      match registryLookup actionSlug d.partnerActions with
      | none => .error (.badRequest ("\"" ++ actionSlug ++ "\" is not a valid action"))
      | some action =>
        let input : ExecuteInput :=
          { payload := .obj event, mapping := jget subscription "mapping", settings := settings }
        match action.execute input with
        | .error e => .error e
        | .ok results =>
          .ok (results, some
            { duration := 0
              destination := d.name
              action := actionSlug
              input := { input with settings := redactSettings settings privateSettings }
              output := results })

/-- `getSubscriptions` (`index.ts` lines 205-211): take `settings.subscriptions`,
`JSON.parse` it when it is a string (a `SyntaxError` propagates), and pass
anything else through unchecked — the `as Subscription[]` cast performs no
validation. -/
def getSubscriptions (settings : JSONObject) : Except DKError (Option JSON) :=
  match jlookup "subscriptions" settings with
  | some (.str s) =>
    match JSON.parse s with
    | some j => .ok (some j)
    | none => .error (.syntaxError "Unexpected token in JSON")
  | v => .ok v

/-- `getDestinationSettings` (`index.ts` lines 213-217): rest-destructuring
drops the `subscriptions` key and keeps every other property. -/
def getDestinationSettings (settings : JSONObject) : JSONObject :=
  settings.filter (fun kv => kv.1 != "subscriptions")

/-- `Promise.all`'s result gathering: results are stored by task index, so a
fulfilled aggregate is the per-task results in declaration order, and any
rejection rejects the aggregate (first in declaration order used when the
completion order finds none first). -/
def collectResults :
    List (Except DKError (List StepResult × Option Subscriptions)) →
    Except DKError (List StepResult)
  | [] => .ok []
  | .error e :: _ => .error e
  | .ok (rs, _) :: rest => (collectResults rest).map (fun acc => rs ++ acc)

/-- The instrumentation entry task `i` appends on completion, if it fulfils
with one. -/
def taskEntry (outcomes : List (Except DKError (List StepResult × Option Subscriptions)))
    (i : Nat) : Option Subscriptions :=
  match outcomes.get? i with
  | some (.ok (_, some entry)) => some entry
  | _ => none

/-- The rejection reason of task `i`, if it rejects. -/
def taskError (outcomes : List (Except DKError (List StepResult × Option Subscriptions)))
    (i : Nat) : Option DKError :=
  match outcomes.get? i with
  | some (.error e) => some e
  | _ => none

/-- `Destination.onEvent` (`index.ts` lines 186-202): parse the subscriptions
value, strip it from the settings, fan out one task per subscription
(`subscriptions.map` throws a `TypeError` when the value is not an array),
and `await Promise.all(...)` then flatten.

Concurrency is embedded explicitly: `schedule` is the completion order of
the fan-out tasks (a permutation of the task indices). Each task appends its
instrumentation entry when it completes, so the log grows in completion
order, and tasks keep running (and appending) even when a sibling rejects,
as promises are not cancelled. `Promise.all` stores fulfilment values by
index — declaration order — and rejects with the first rejection in
completion order. -/
def Destination.onEvent (d : Destination) (context : Context) (event : JSONObject)
    (settings : JSONObject) (privateSettings : JSONArray) (schedule : List Nat) :
    Except DKError (List StepResult) × Context :=
  match getSubscriptions settings with
  | .error e => (.error e, context)
  | .ok subsVal =>
    match subsVal with
    | some (.arr subscriptions) =>
      let destinationSettings := getDestinationSettings settings
      let outcomes := subscriptions.map
        (fun s => d.onSubscription s event destinationSettings privateSettings)
      let context2 := schedule.foldl (fun c i =>
        match taskEntry outcomes i with
        | some entry => instrumentSubscription c entry
        | none => c) context
      let result :=
        match schedule.findSome? (taskError outcomes) with
        | some e => .error e
        | none => collectResults outcomes
      (result, context2)
    | _ => (.error (.typeError "subscriptions.map is not a function"), context)

/-- The step results a fulfilled task contributed (and `[]` for a rejected
one; only used under fulfilment hypotheses). -/
def outcomeResults : Except DKError (List StepResult × Option Subscriptions) → List StepResult
  | .ok p => p.1
  | .error _ => []

/-- The step results a subscription contributes when its task fulfils (and
`[]` on a rejected task; only used under a fulfilment hypothesis). -/
def onSubscriptionResults (d : Destination) (s : JSON) (event : JSONObject)
    (settings : JSONObject) (privateSettings : JSONArray) : List StepResult :=
  outcomeResults (d.onSubscription s event settings privateSettings)

/-- Whether a task outcome fulfilled carrying an instrumentation entry. -/
def fulfilledWithEntry : Except DKError (List StepResult × Option Subscriptions) → Bool
  | .ok (_, some _) => true
  | _ => false

/-- Whether a subscription's task fulfils with an instrumentation entry
(i.e. its predicate matched and its pipeline succeeded). -/
def subscriptionInstrumented (d : Destination) (event : JSONObject)
    (settings : JSONObject) (privateSettings : JSONArray) (s : JSON) : Bool :=
  fulfilledWithEntry (d.onSubscription s event settings privateSettings)

/-- Whether a `settings.subscriptions` value is of one of the two tolerated
encodings: a string or an array. -/
def isStrOrArr : Option JSON → Bool
  | some (.str _) => true
  | some (.arr _) => true
  | _ => false

/-- A partner action that always succeeds with one result, for concrete runs. -/
def okAction : Action := ⟨fun _ => .ok [{ output := .str "ok" }]⟩

/-- A concrete destination with one registered action `doThing`. -/
def demoDest : Destination :=
  { name := "demo"
    defaultSubscriptions := []
    partnerActions := [("doThing", okAction)]
    requestExtensions := []
    settingsSchema := none
    auth := none }

/-- A concrete `track` event. -/
def trackEvent : JSONObject := [("type", .str "track")]

/-- A subscription matching `track` events and naming the registered action. -/
def subGood : JSON :=
  .obj [("partnerAction", .str "doThing"), ("subscribe", .obj [("type", .str "track")])]

/-- A subscription matching `track` events but naming an unregistered slug. -/
def subBadSlug : JSON :=
  .obj [("partnerAction", .str "missing"), ("subscribe", .obj [("type", .str "track")])]

/-- A subscription whose predicate (`type = "page"`) does not match a `track`
event. -/
def subNoMatch : JSON :=
  .obj [("partnerAction", .str "doThing"), ("subscribe", .obj [("type", .str "page")])]

/-- A destination whose settings schema reports one violation on every
settings object. -/
def schemaFailDest : Destination :=
  { name := "d"
    defaultSubscriptions := []
    partnerActions := []
    requestExtensions := []
    settingsSchema := some (fun _ => ["settings must have apiKey"])
    auth := none }

/-- A destination whose caller-supplied credential probe always fails. -/
def probeFailDest : Destination :=
  { name := "d"
    defaultSubscriptions := []
    partnerActions := []
    requestExtensions := []
    settingsSchema := none
    auth := some
      { type := "apiKey"
        options := { testCredentials := fun _ _ => .error (.requestError "401 Unauthorized") } } }

/-- A settings object whose `subscriptions` value is a number: neither of the
two tolerated encodings. -/
def badSubsSettings : JSONObject := [("apiKey", .str "k"), ("subscriptions", .num 5)]

/-- The instrumentation entry the demo destination persists for `subGood`
when `apiKey` is private: its stored settings hold the placeholder. -/
def redactedEntry : Subscriptions :=
  { duration := 0
    destination := "demo"
    action := "doThing"
    input :=
      { payload := .obj trackEvent
        mapping := none
        settings := [("apiKey", redactPlaceholder)] }
    output := [{ output := .str "ok" }] }

/-! ## Generic facts about the runtime's combinators -/

/-- Threading the context through the completion-order fold appends exactly
the entries of the fulfilled instrumented tasks, in completion order. -/
theorem foldl_instrument (f : Nat → Option Subscriptions) (sched : List Nat) :
    ∀ ctx : Context,
      sched.foldl (fun c i =>
        match f i with
        | some e => instrumentSubscription c e
        | none => c) ctx = ctx ++ sched.filterMap f := by
  induction sched with
  | nil => intro ctx; simp
  | cons i rest ih =>
    intro ctx
    cases h : f i with
    | none =>
      simp only [List.foldl_cons, List.filterMap_cons, h]
      exact ih ctx
    | some e =>
      simp only [List.foldl_cons, List.filterMap_cons, h]
      rw [ih (instrumentSubscription ctx e)]
      simp [instrumentSubscription]

/-- A fulfilled `Promise.all` aggregate is the flattening of the per-task
result lists in declaration order. -/
theorem collectResults_ok :
    ∀ {outcomes : List (Except DKError (List StepResult × Option Subscriptions))}
      {results : List StepResult},
      collectResults outcomes = .ok results →
      results = (outcomes.map outcomeResults).flatten := by
  intro outcomes
  induction outcomes with
  | nil => intro results h; simp [collectResults] at h; simp [h.symm]
  | cons o rest ih =>
    intro results h
    cases o with
    | error e => simp [collectResults] at h
    | ok p =>
      simp only [collectResults] at h
      cases hr : collectResults rest with
      | error e => rw [hr] at h; simp [Except.map] at h
      | ok acc =>
        rw [hr] at h
        simp only [Except.map, Except.ok.injEq] at h
        simp [h.symm, ih hr, outcomeResults]

/-- A fulfilled `Promise.all` aggregate has no rejected member task. -/
theorem collectResults_mem_ok :
    ∀ {outcomes : List (Except DKError (List StepResult × Option Subscriptions))}
      {results : List StepResult},
      collectResults outcomes = .ok results →
      ∀ {o}, o ∈ outcomes → ∃ p, o = .ok p := by
  intro outcomes
  induction outcomes with
  | nil => intro results _ o ho; simp at ho
  | cons o2 rest ih =>
    intro results h o ho
    cases o2 with
    | error e => simp [collectResults] at h
    | ok p =>
      rcases List.mem_cons.mp ho with h1 | h1
      · exact ⟨p, h1⟩
      · simp only [collectResults] at h
        cases hr : collectResults rest with
        | error e => rw [hr] at h; simp [Except.map] at h
        | ok acc => exact ih hr h1

/-- The number of kept elements of a `filterMap` is the count of inputs the
function keeps. -/
theorem length_filterMap_countP (f : α → Option β) (l : List α) :
    (l.filterMap f).length = l.countP (fun a => (f a).isSome) := by
  induction l with
  | nil => simp
  | cons a rest ih =>
    cases h : f a with
    | none => simp [List.filterMap_cons, h, ih, List.countP_cons, Option.isSome]
    | some b => simp [List.filterMap_cons, h, ih, List.countP_cons, Option.isSome]

/-- Counting indexed hits over `range l.length` is counting hits over `l`. -/
theorem countP_range_get (l : List α) (p : α → Bool) :
    (List.range l.length).countP (fun i => ((l.get? i).map p).getD false) = l.countP p := by
  induction l with
  | nil => simp
  | cons a rest ih =>
    have h1 : ((fun i => (((a :: rest).get? i).map p).getD false) ∘ (· + 1)) =
        (fun i => ((rest.get? i).map p).getD false) := by
      funext i
      rfl
    rw [List.length_cons, List.range_succ_eq_map, List.countP_cons, List.countP_map, h1, ih,
      List.countP_cons]
    rfl

/-- When the subscriptions value resolves to an array, the final context is
the initial one plus the entries of the fulfilled instrumented tasks in
completion order. -/
theorem onEvent_snd (d : Destination) (ctx : Context) (event settings : JSONObject)
    (priv : JSONArray) (sched : List Nat) (subs : List JSON)
    (hsubs : getSubscriptions settings = .ok (some (.arr subs))) :
    (d.onEvent ctx event settings priv sched).2 =
      ctx ++ sched.filterMap (taskEntry (subs.map
        (fun s => d.onSubscription s event (getDestinationSettings settings) priv))) := by
  simp only [Destination.onEvent, hsubs]
  exact foldl_instrument _ sched ctx

/-- When the subscriptions value resolves to an array, the call's outcome is
the first rejection in completion order, or the `Promise.all` aggregation of
the per-task results. -/
theorem onEvent_fst (d : Destination) (ctx : Context) (event settings : JSONObject)
    (priv : JSONArray) (sched : List Nat) (subs : List JSON)
    (hsubs : getSubscriptions settings = .ok (some (.arr subs))) :
    (d.onEvent ctx event settings priv sched).1 =
      (match sched.findSome? (taskError (subs.map
          (fun s => d.onSubscription s event (getDestinationSettings settings) priv))) with
        | some e => .error e
        | none => collectResults (subs.map
            (fun s => d.onSubscription s event (getDestinationSettings settings) priv))) := by
  simp only [Destination.onEvent, hsubs]

/-- A task that yields an instrumentation entry is a fulfilled member task
carrying that entry. -/
theorem taskEntry_some {outcomes : List (Except DKError (List StepResult × Option Subscriptions))}
    {i : Nat} {entry : Subscriptions} (h : taskEntry outcomes i = some entry) :
    ∃ o ∈ outcomes, ∃ rs, o = .ok (rs, some entry) := by
  unfold taskEntry at h
  cases ho : outcomes.get? i with
  | none =>
    rw [ho] at h
    exact Option.noConfusion h
  | some o =>
    have hmem : o ∈ outcomes := List.get?_mem ho
    rw [ho] at h
    cases o with
    | error e => simp at h
    | ok p =>
      rcases p with ⟨rs, oe⟩
      cases oe with
      | none => simp at h
      | some e2 =>
        simp only [Option.some.injEq] at h
        exact ⟨.ok (rs, some e2), hmem, rs, by rw [h]⟩

/-- A fulfilled subscription task's instrumentation entry stores the redacted
destination settings (`index.ts` lines 168-177). -/
theorem onSubscription_entry {d : Destination} {s : JSON} {event settings : JSONObject}
    {priv : JSONArray} {rs : List StepResult} {entry : Subscriptions}
    (h : d.onSubscription s event settings priv = .ok (rs, some entry)) :
    entry.input.settings = redactSettings settings priv := by
  cases s
  case null => simp [Destination.onSubscription] at h
  all_goals
    simp only [Destination.onSubscription] at h
    split at h
    next => simp at h
    next =>
      split at h
      next => simp at h
      next action heq =>
        split at h
        next => simp at h
        next results hex =>
          simp only [Except.ok.injEq, Prod.mk.injEq, Option.some.injEq] at h
          rw [← h.2]

/-- A value looked up in a redacted settings object under a private key is
the placeholder, never the original private value. -/
theorem jlookup_redactSettings {k : String} {priv : JSONArray} (hk : JSON.str k ∈ priv) :
    ∀ (settings : JSONObject) {v : JSON},
      jlookup k (redactSettings settings priv) = some v → v = redactPlaceholder := by
  intro settings
  induction settings with
  | nil => intro v h; simp [redactSettings, jlookup] at h
  | cons kv rest ih =>
    intro v h
    rcases kv with ⟨k2, v2⟩
    by_cases hkk : k2 = k
    · subst hkk
      have hany : (priv.any fun p =>
          match p with
          | .str s2 => s2 == k2
          | _ => false) = true :=
        List.any_eq_true.mpr ⟨JSON.str k2, hk, by simp⟩
      simp only [redactSettings, List.map_cons, hany, if_pos] at h
      simp [jlookup] at h
      exact h.symm
    · simp only [redactSettings, List.map_cons] at h
      cases hcond : (priv.any fun p =>
          match p with
          | .str s2 => s2 == k2
          | _ => false) <;>
        rw [hcond] at h <;>
        simp only [Bool.false_eq_true, if_false, if_true, jlookup, hkk] at h <;>
        exact ih h

/-- C8. For every call to `Destination.onEvent`, the destination-level
settings handed to each subscription's pipeline are the caller's settings
with exactly the `subscriptions` key removed: looking up any other key gives
the caller's value unchanged, and looking up `subscriptions` gives nothing.
(`onEvent` hands `getDestinationSettings settings` to every task by
construction, and the embedding is pure, so the caller's object itself is
never mutated.) -/
theorem c8_destination_settings_strip (settings : JSONObject) (k : String) :
    jlookup k (getDestinationSettings settings) =
      if k = "subscriptions" then none else jlookup k settings := by
  induction settings with
  | nil => by_cases hk : k = "subscriptions" <;> simp [getDestinationSettings, jlookup, hk]
  | cons kv rest ih =>
    rcases kv with ⟨k2, v2⟩
    by_cases h1 : k2 = "subscriptions"
    · subst h1
      have hg : getDestinationSettings (("subscriptions", v2) :: rest) =
          getDestinationSettings rest := by
        simp [getDestinationSettings, List.filter_cons]
      rw [hg, ih]
      by_cases h2 : k = "subscriptions"
      · simp [h2]
      · simp only [h2, if_false, jlookup]
        rw [if_neg (fun hh => h2 hh.symm)]
    · have hg : getDestinationSettings ((k2, v2) :: rest) =
          (k2, v2) :: getDestinationSettings rest := by
        simp [getDestinationSettings, List.filter_cons, h1]
      rw [hg]
      by_cases h2 : k2 = k
      · subst h2
        simp [jlookup, h1]
      · simp only [jlookup, h2, if_false, ih]

/-! ## The claims -/

/-- C1 (counterexample). Two subscriptions both match the event; the second
references an unregistered action slug. Contrary to the claim, the call as a
whole does not succeed and the valid subscription's result is not included:
`Promise.all` rejects with the `BadRequest` of the failing subscription. -/
theorem c1_counterexample_failure_aborts :
    (demoDest.onEvent [] trackEvent
        [("subscriptions", .arr [subGood, subBadSlug])] [] [0, 1]).1
      = .error (.badRequest "\"missing\" is not a valid action") := rfl

/-- C1 (amended). A failure inside one subscription's processing aborts the
whole `Destination.onEvent` call: whenever any subscription task rejects,
`onEvent` rejects (with some subscription's error) and no aggregated result
list is returned — intentionally, per the source comment, so the whole set
can be retried. -/
theorem c1_amended_failure_aborts_event (d : Destination) (ctx : Context)
    (event settings : JSONObject) (priv : JSONArray) (sched : List Nat)
    (subs : List JSON) (s : JSON) (e : DKError)
    (hsubs : getSubscriptions settings = .ok (some (.arr subs)))
    (hs : s ∈ subs)
    (herr : d.onSubscription s event (getDestinationSettings settings) priv = .error e) :
    ∃ e2, (d.onEvent ctx event settings priv sched).1 = .error e2 := by
  rw [onEvent_fst d ctx event settings priv sched subs hsubs]
  cases hf : sched.findSome? (taskError (subs.map
      (fun s => d.onSubscription s event (getDestinationSettings settings) priv))) with
  | some e2 => exact ⟨e2, rfl⟩
  | none =>
    cases hc : collectResults (subs.map
        (fun s => d.onSubscription s event (getDestinationSettings settings) priv)) with
    | error e2 => exact ⟨e2, rfl⟩
    | ok results =>
      have hmem := collectResults_mem_ok hc
        (List.mem_map_of_mem
          (fun s => d.onSubscription s event (getDestinationSettings settings) priv) hs)
      rcases hmem with ⟨p, hp⟩
      simp [herr] at hp

/-- C1 (witness for the amended claim), at the concrete two-subscription run
with completion order `[1, 0]`. -/
theorem c1_amended_witness :
    getSubscriptions [("subscriptions", .arr [subGood, subBadSlug])]
        = .ok (some (.arr [subGood, subBadSlug])) ∧
      subBadSlug ∈ [subGood, subBadSlug] ∧
      demoDest.onSubscription subBadSlug trackEvent
          (getDestinationSettings [("subscriptions", .arr [subGood, subBadSlug])]) []
        = .error (.badRequest "\"missing\" is not a valid action") ∧
      ∃ e2, (demoDest.onEvent [] trackEvent
          [("subscriptions", .arr [subGood, subBadSlug])] [] [1, 0]).1 = .error e2 :=
  ⟨rfl, List.mem_cons_of_mem _ (List.mem_cons_self _ _), rfl,
    c1_amended_failure_aborts_event demoDest [] trackEvent _ [] [1, 0] _ subBadSlug _
      rfl (List.mem_cons_of_mem _ (List.mem_cons_self _ _)) rfl⟩

/-- C2 (counterexample). A failing settings-validation step does not surface
the generic `Credentials are invalid` error: the structured validation error
propagates to the caller unmodified. -/
theorem c2_counterexample_validation_leaks :
    (schemaFailDest.testCredentials []).1
        = .error (.validationError ["settings must have apiKey"]) ∧
      (schemaFailDest.testCredentials []).1
        ≠ .error (.genericError "Credentials are invalid") :=
  ⟨rfl, by intro hcontra; exact absurd (Except.error.inj hcontra) (by simp)⟩

/-- C2 (amended). During `Destination.testCredentials`, only a failure of the
caller-supplied credential probe is normalized to the single generic
`Credentials are invalid` error; a failure of the settings-validation step
instead propagates as the structured validation error itself. -/
theorem c2_amended_credential_errors (d : Destination) (settings : JSONObject) :
    (∀ schema viol, d.settingsSchema = some schema → schema settings = viol → viol ≠ [] →
        (d.testCredentials settings).1 = .error (.validationError viol)) ∧
    (∀ auth e, d.auth = some auth →
        (d.settingsSchema = none ∨
          ∃ schema, d.settingsSchema = some schema ∧ schema settings = []) →
        auth.options.testCredentials
          (d.requestExtensions.foldl
            (fun r ext => ext { payload := .obj [], mapping := none, settings := settings } r)
            baseRequest) settings = .error e →
        (d.testCredentials settings).1 = .error (.genericError "Credentials are invalid")) := by
  constructor
  · intro schema viol h1 h2 h3
    rcases viol with _ | ⟨v, vs⟩
    · exact absurd rfl h3
    · have hv : validateStep schema
          { payload := .obj [], mapping := none, settings := settings }
          = .error (.validationError (v :: vs)) := by
        simp [validateStep, h2]
      simp [Destination.testCredentials, h1, hv]
  · intro auth e hauth hval hprobe
    have hprobe2 : d.probeCredentials
        { payload := .obj [], mapping := none, settings := settings } settings
        = (.error (.genericError "Credentials are invalid"), 1) := by
      simp only [Destination.probeCredentials, hauth, hprobe]
    rcases hval with hnone | ⟨schema, hs, hempty⟩
    · simp [Destination.testCredentials, hnone, hprobe2]
    · have hv : validateStep schema
          { payload := .obj [], mapping := none, settings := settings } = .ok () := by
        simp [validateStep, hempty]
      simp [Destination.testCredentials, hs, hv, hprobe2]

/-- C2 (witness for the amended claim): a failing schema surfaces the
validation error; a failing probe surfaces the generic error. -/
theorem c2_amended_witness :
    (schemaFailDest.testCredentials [("k", .str "v")]).1
        = .error (.validationError ["settings must have apiKey"]) ∧
      (probeFailDest.testCredentials [("k", .str "v")]).1
        = .error (.genericError "Credentials are invalid") :=
  ⟨(c2_amended_credential_errors schemaFailDest _).1 _ _ rfl rfl (by simp),
    (c2_amended_credential_errors probeFailDest _).2 _ (.requestError "401 Unauthorized")
      rfl (Or.inl rfl) rfl⟩

/-- C3 (counterexample). With `settings.subscriptions` set to the number `5`,
the subscription-parsing step raises no error at all (the unchecked cast
passes the value through); the whole-event failure is a later `TypeError`
from calling `.map` on the non-array, not a subscription parsing error. -/
theorem c3_counterexample_no_parse_error :
    getSubscriptions badSubsSettings = .ok (some (.num 5)) ∧
      (demoDest.onEvent [] trackEvent badSubsSettings [] []).1
        = .error (.typeError "subscriptions.map is not a function") :=
  ⟨rfl, rfl⟩

/-- C3 (amended). For every settings object whose `subscriptions` value is
neither a string nor an array (absent, a number, a boolean, `null`, or a
plain object), `Destination.onEvent` fails fatally for the whole event — but
with the untyped `TypeError` raised when `.map` is invoked on the non-array
value, not with a dedicated subscription-parse error: no parsing-stage check
exists (`getSubscriptions` only raises for string values that are invalid
JSON). The context is left untouched. -/
theorem c3_amended_type_error (d : Destination) (ctx : Context) (event settings : JSONObject)
    (priv : JSONArray) (sched : List Nat)
    (h : isStrOrArr (jlookup "subscriptions" settings) = false) :
    d.onEvent ctx event settings priv sched =
      (.error (.typeError "subscriptions.map is not a function"), ctx) := by
  cases hv : jlookup "subscriptions" settings with
  | none => simp [Destination.onEvent, getSubscriptions, hv]
  | some j =>
    cases j <;> simp_all [Destination.onEvent, getSubscriptions, isStrOrArr]

/-- C3 (witness for the amended claim) at the concrete numeric value. -/
theorem c3_amended_witness :
    isStrOrArr (jlookup "subscriptions" badSubsSettings) = false ∧
      demoDest.onEvent [] trackEvent badSubsSettings [] [0]
        = (.error (.typeError "subscriptions.map is not a function"), []) :=
  ⟨rfl, c3_amended_type_error demoDest [] trackEvent badSubsSettings [] [0] rfl⟩

/-- C5. A subscription record whose predicate does not match the incoming
event short-circuits before any step runs: for every destination (whatever
actions it has registered) the task fulfils with exactly one `StepResult`
with output `"not subscribed"`, no action is looked up or executed, and no
instrumentation entry is produced. -/
theorem c5_not_subscribed_short_circuit (d : Destination) (fields : List (String × JSON))
    (event settings : JSONObject) (priv : JSONArray)
    (h : validate (jget (.obj fields) "subscribe") event = false) :
    d.onSubscription (.obj fields) event settings priv =
      .ok ([{ output := .str "not subscribed" }], none) := by
  simp [Destination.onSubscription, h]

/-- C5 (witness): the `type = "page"` subscription against a `track` event. -/
theorem c5_witness :
    validate (jget subNoMatch "subscribe") trackEvent = false ∧
      demoDest.onSubscription subNoMatch trackEvent [("apiKey", .str "k")] [] =
        .ok ([{ output := .str "not subscribed" }], none) :=
  ⟨rfl, c5_not_subscribed_short_circuit demoDest
    [("partnerAction", .str "doThing"), ("subscribe", .obj [("type", .str "page")])]
    trackEvent [("apiKey", .str "k")] [] rfl⟩

/-- C7. Every instrumentation record `Destination.onEvent` appends to the
Context has, for every field key listed in `privateSettings`, the key's value
replaced by the fixed placeholder in its stored settings: the private value
never appears in the persisted record. -/
theorem c7_instrumentation_redacts_private_settings
    (d : Destination) (ctx : Context) (event settings : JSONObject) (priv : JSONArray)
    (sched : List Nat) (entry : Subscriptions)
    (hmem : entry ∈ (d.onEvent ctx event settings priv sched).2) :
    entry ∈ ctx ∨
      ∀ k v, JSON.str k ∈ priv →
        jlookup k entry.input.settings = some v → v = redactPlaceholder := by
  cases hg : getSubscriptions settings with
  | error e =>
    left
    simpa only [Destination.onEvent, hg] using hmem
  | ok subsVal =>
    cases subsVal with
    | none =>
      left
      simpa only [Destination.onEvent, hg] using hmem
    | some j =>
      cases j
      case arr subs =>
        rw [onEvent_snd d ctx event settings priv sched subs hg] at hmem
        rcases List.mem_append.mp hmem with hL | hR
        · exact Or.inl hL
        · right
          rcases List.mem_filterMap.mp hR with ⟨i, _, hti⟩
          rcases taskEntry_some hti with ⟨o, homem, rs, ho⟩
          subst ho
          rcases List.mem_map.mp homem with ⟨s, _, hfs⟩
          have hset := onSubscription_entry hfs
          intro k v hk hv
          rw [hset] at hv
          exact jlookup_redactSettings hk _ hv
      all_goals
        left
        simpa only [Destination.onEvent, hg] using hmem

/-- C7 (witness): a concrete run with `apiKey` private; the persisted record
holds the placeholder, not the caller's value. -/
theorem c7_witness :
    redactedEntry ∈ (demoDest.onEvent [] trackEvent
        [("apiKey", .str "secret-key"), ("subscriptions", .arr [subGood])]
        [.str "apiKey"] [0]).2 ∧
      ∀ v, jlookup "apiKey" redactedEntry.input.settings = some v →
        v = redactPlaceholder := by
  have hmem : redactedEntry ∈ (demoDest.onEvent [] trackEvent
      [("apiKey", .str "secret-key"), ("subscriptions", .arr [subGood])]
      [.str "apiKey"] [0]).2 := by
    rw [show (demoDest.onEvent [] trackEvent
      [("apiKey", .str "secret-key"), ("subscriptions", .arr [subGood])]
      [.str "apiKey"] [0]).2 = [redactedEntry] from rfl]
    exact List.mem_singleton.mpr rfl
  refine ⟨hmem, fun v hv => ?_⟩
  have h := c7_instrumentation_redacts_private_settings demoDest [] trackEvent
    [("apiKey", .str "secret-key"), ("subscriptions", .arr [subGood])]
    [.str "apiKey"] [0] redactedEntry hmem
  rcases h with h | h
  · simp at h
  · exact h "apiKey" v (List.mem_singleton.mpr rfl) hv

/-- C10. A destination with no settings schema and no auth configured:
`testCredentials` resolves successfully while issuing zero credential-probe
requests, so its success implies no credential was checked. -/
theorem c10_no_schema_no_auth_trivial_success (d : Destination) (settings : JSONObject)
    (h1 : d.settingsSchema = none) (h2 : d.auth = none) :
    d.testCredentials settings = (.ok (), 0) := by
  simp [Destination.testCredentials, Destination.probeCredentials, h1, h2]

/-- C10 (witness) at the concrete bare destination. -/
theorem c10_witness :
    demoDest.settingsSchema = none ∧ demoDest.auth = none ∧
      demoDest.testCredentials [("apiKey", .str "k")] = (.ok (), 0) :=
  ⟨rfl, rfl, c10_no_schema_no_auth_trivial_success demoDest [("apiKey", .str "k")] rfl rfl⟩

/-- C6 (counterexample). A subscription attempt whose predicate does not
match is processed (it contributes its `"not subscribed"` result) yet appends
no instrumentation entry at all — the claim promised exactly one entry per
attempt. -/
theorem c6_counterexample_no_entry_for_unmatched :
    (demoDest.onEvent [] trackEvent [("subscriptions", .arr [subNoMatch])] [] [0]).1
        = .ok [{ output := .str "not subscribed" }] ∧
      (demoDest.onEvent [] trackEvent [("subscriptions", .arr [subNoMatch])] [] [0]).2
        = [] :=
  ⟨rfl, rfl⟩

/-- C6 (amended). During `Destination.onEvent`, exactly one instrumentation
entry `{duration, destination, action, input, output}` is appended to the
Context's subscriptions log per subscription whose predicate matched *and*
whose pipeline succeeded; attempts that do not match, or whose processing
fails, append nothing. -/
theorem c6_amended_one_entry_per_instrumented_subscription
    (d : Destination) (ctx : Context) (event settings : JSONObject)
    (priv : JSONArray) (sched : List Nat) (subs : List JSON)
    (hsubs : getSubscriptions settings = .ok (some (.arr subs)))
    (hperm : sched.Perm (List.range subs.length)) :
    ((d.onEvent ctx event settings priv sched).2).length =
      ctx.length + subs.countP
        (subscriptionInstrumented d event (getDestinationSettings settings) priv) := by
  rw [onEvent_snd d ctx event settings priv sched subs hsubs, List.length_append]
  congr 1
  rw [length_filterMap_countP]
  have hpt : (fun i => (taskEntry (subs.map
      (fun s => d.onSubscription s event (getDestinationSettings settings) priv)) i).isSome)
      = (fun i => (((subs.map
          (fun s => d.onSubscription s event (getDestinationSettings settings) priv)).get?
            i).map fulfilledWithEntry).getD false) := by
    funext i
    unfold taskEntry
    cases ho : (subs.map
        (fun s => d.onSubscription s event (getDestinationSettings settings) priv)).get? i with
    | none => rfl
    | some o =>
      cases o with
      | error e => rfl
      | ok p =>
        rcases p with ⟨rs, oe⟩
        cases oe <;> rfl
  rw [hpt, hperm.countP_eq]
  rw [show subs.length = (subs.map
      (fun s => d.onSubscription s event (getDestinationSettings settings) priv)).length
    from (List.length_map _ _).symm]
  rw [countP_range_get, List.countP_map]
  rfl

/-- C6 (witness for the amended claim): two attempts, one instrumented, with
completion order `[1, 0]`; the log grows by exactly one entry. -/
theorem c6_amended_witness :
    getSubscriptions [("subscriptions", .arr [subGood, subNoMatch])]
        = .ok (some (.arr [subGood, subNoMatch])) ∧
      ([1, 0] : List Nat).Perm (List.range [subGood, subNoMatch].length) ∧
      ((demoDest.onEvent [] trackEvent
          [("subscriptions", .arr [subGood, subNoMatch])] [] [1, 0]).2).length
        = ([] : Context).length + [subGood, subNoMatch].countP
            (subscriptionInstrumented demoDest trackEvent
              (getDestinationSettings [("subscriptions", .arr [subGood, subNoMatch])]) []) :=
  ⟨rfl, by decide,
    c6_amended_one_entry_per_instrumented_subscription demoDest [] trackEvent
      [("subscriptions", .arr [subGood, subNoMatch])] [] [1, 0] [subGood, subNoMatch]
      rfl (by decide)⟩

/-- C9. The aggregated result list returned by `Destination.onEvent` is the
concatenation of the per-subscription `StepResult` sequences in
subscription-declaration order, for every completion order of the concurrent
subscription tasks. -/
theorem c9_results_declaration_order (d : Destination) (ctx : Context)
    (event settings : JSONObject) (priv : JSONArray) (sched : List Nat)
    (subs : List JSON) (results : List StepResult)
    (hsubs : getSubscriptions settings = .ok (some (.arr subs)))
    (hok : (d.onEvent ctx event settings priv sched).1 = .ok results) :
    results = (subs.map (fun s =>
      onSubscriptionResults d s event (getDestinationSettings settings) priv)).flatten := by
  rw [onEvent_fst d ctx event settings priv sched subs hsubs] at hok
  cases hf : sched.findSome? (taskError (subs.map
      (fun s => d.onSubscription s event (getDestinationSettings settings) priv))) with
  | some e => rw [hf] at hok; simp at hok
  | none =>
    rw [hf] at hok
    have hres := collectResults_ok hok
    rw [hres, List.map_map]
    rfl

/-- C9 (witness): a two-subscription run completed in reverse order `[1, 0]`
still aggregates in declaration order. -/
theorem c9_witness :
    getSubscriptions [("subscriptions", .arr [subNoMatch, subGood])]
        = .ok (some (.arr [subNoMatch, subGood])) ∧
      (demoDest.onEvent [] trackEvent
          [("subscriptions", .arr [subNoMatch, subGood])] [] [1, 0]).1
        = .ok [{ output := .str "not subscribed" }, { output := .str "ok" }] ∧
      [({ output := .str "not subscribed" } : StepResult), { output := .str "ok" }]
        = ([subNoMatch, subGood].map (fun s =>
            onSubscriptionResults demoDest s trackEvent
              (getDestinationSettings [("subscriptions", .arr [subNoMatch, subGood])])
              [])).flatten :=
  ⟨rfl, rfl,
    c9_results_declaration_order demoDest [] trackEvent
      [("subscriptions", .arr [subNoMatch, subGood])] [] [1, 0] [subNoMatch, subGood]
      [{ output := .str "not subscribed" }, { output := .str "ok" }] rfl rfl⟩

/-! ## Round trip of the canonical JSON encoding: number and string layers -/

/-- The digit characters, their values, and their difference from every
delimiter the parser dispatches on. -/
theorem digitChar_facts {d : Nat} (h : d < 10) :
    (Nat.digitChar d).isDigit = true ∧ digitVal (Nat.digitChar d) = d ∧
      Nat.digitChar d ≠ 'n' ∧ Nat.digitChar d ≠ 't' ∧ Nat.digitChar d ≠ 'f' ∧
      Nat.digitChar d ≠ '"' ∧ Nat.digitChar d ≠ '[' ∧ Nat.digitChar d ≠ '\x7b' ∧
      Nat.digitChar d ≠ ']' ∧ Nat.digitChar d ≠ '\x7d' ∧ Nat.digitChar d ≠ ',' ∧
      Nat.digitChar d ≠ '-' := by
  interval_cases d <;> exact (by decide)

/-- Every character `natEmitAux` emits is a digit character. -/
theorem natEmitAux_digits :
    ∀ (fuel n : Nat) (c : Char), c ∈ natEmitAux fuel n → ∃ d, d < 10 ∧ c = Nat.digitChar d := by
  intro fuel
  induction fuel with
  | zero => intro n c hc; simp [natEmitAux] at hc
  | succ fuel ih =>
    intro n c hc
    by_cases h0 : n = 0
    · simp [natEmitAux, h0] at hc
    · rw [natEmitAux, if_neg h0] at hc
      rcases List.mem_append.mp hc with hm | hm
      · exact ih _ c hm
      · rw [List.mem_singleton.mp hm]
        exact ⟨n % 10, Nat.mod_lt _ (by norm_num), rfl⟩

/-- `natEmit` always begins with a digit character. -/
theorem natEmit_head (n : Nat) :
    ∃ d cs, d < 10 ∧ natEmit n = Nat.digitChar d :: cs := by
  by_cases h0 : n = 0
  · exact ⟨0, [], by norm_num, by simp [natEmit, h0]; rfl⟩
  · rw [natEmit, if_neg h0]
    have hne : natEmitAux n n ≠ [] := by
      cases n with
      | zero => exact absurd rfl h0
      | succ m =>
        rw [natEmitAux, if_neg h0]
        exact fun hcontra => by simp at hcontra
    cases hform : natEmitAux n n with
    | nil => exact absurd hform hne
    | cons c cs =>
      have hd := natEmitAux_digits n n c (by rw [hform]; exact List.mem_cons_self _ _)
      rcases hd with ⟨d, hd10, rfl⟩
      exact ⟨d, cs, hd10, rfl⟩

/-- `natEmitAux` with enough fuel emits exactly the base-10 digits, most
significant first. -/
theorem natEmitAux_eq :
    ∀ (fuel n : Nat), n ≤ fuel →
      natEmitAux fuel n = ((Nat.digits 10 n).map Nat.digitChar).reverse := by
  intro fuel
  induction fuel with
  | zero =>
    intro n h
    have h0 : n = 0 := Nat.le_zero.mp h
    simp [natEmitAux, h0]
  | succ fuel ih =>
    intro n h
    by_cases h0 : n = 0
    · simp [natEmitAux, h0]
    · rw [natEmitAux, if_neg h0]
      have hdiv : n / 10 ≤ fuel := by
        have := Nat.div_lt_self (Nat.pos_of_ne_zero h0) (by norm_num : 1 < 10)
        omega
      rw [ih (n / 10) hdiv,
        Nat.digits_def' (by norm_num : (1 : Nat) < 10) (Nat.pos_of_ne_zero h0)]
      simp

/-- Folding the parser's digit accumulator over emitted digits recovers the
number. -/
theorem foldr_digits_ofDigits :
    ∀ ds : List Nat, (∀ d ∈ ds, d < 10) →
      (ds.map Nat.digitChar).foldr (fun c a => a * 10 + digitVal c) 0 =
        Nat.ofDigits 10 ds := by
  intro ds
  induction ds with
  | nil => intro _; simp [Nat.ofDigits]
  | cons d ds ih =>
    intro h
    simp only [List.map_cons, List.foldr_cons]
    rw [ih (fun x hx => h x (List.mem_cons_of_mem _ hx)),
      (digitChar_facts (h d (List.mem_cons_self _ _))).2.1, Nat.ofDigits_cons]
    ring

/-- The accumulator fold over `natEmit n` is `n`. -/
theorem foldl_natEmit (n : Nat) :
    (natEmit n).foldl (fun a c => a * 10 + digitVal c) 0 = n := by
  by_cases h0 : n = 0
  · subst h0; rfl
  · rw [natEmit, if_neg h0, natEmitAux_eq n n (le_refl n), List.foldl_reverse,
      foldr_digits_ofDigits _ (fun d hd => Nat.digits_lt_base (by norm_num) hd)]
    exact Nat.ofDigits_digits 10 n

/-- `takeWhile`/`dropWhile` split an all-satisfying prefix from a rest whose
head does not satisfy the predicate. -/
theorem takeWhile_append_split {α : Type} (p : α → Bool) :
    ∀ (ds rest : List α), (∀ c ∈ ds, p c = true) →
      (∀ c cs, rest = c :: cs → p c = false) →
      (ds ++ rest).takeWhile p = ds ∧ (ds ++ rest).dropWhile p = rest := by
  intro ds
  induction ds with
  | nil =>
    intro rest _ hrest
    cases rest with
    | nil => simp
    | cons c cs => simp [List.takeWhile_cons, List.dropWhile_cons, hrest c cs rfl]
  | cons d ds ih =>
    intro rest hds hrest
    have hd : p d = true := hds d (List.mem_cons_self _ _)
    have hih := ih rest (fun c hc => hds c (List.mem_cons_of_mem _ hc)) hrest
    simp [List.takeWhile_cons, List.dropWhile_cons, hd, hih.1, hih.2]

/-- `natEmit` is never empty. -/
theorem natEmit_isEmpty_false (n : Nat) : (natEmit n).isEmpty = false := by
  obtain ⟨d, cs, _, hform⟩ := natEmit_head n
  rw [hform]
  rfl

/-- `pNat` reads back an emitted natural number when no digit follows. -/
theorem pNat_natEmit (n : Nat) (rest : List Char)
    (hrest : ∀ c cs, rest = c :: cs → c.isDigit = false) :
    pNat (natEmit n ++ rest) = some (n, rest) := by
  have hall : ∀ c ∈ natEmit n, c.isDigit = true := by
    intro c hc
    by_cases h0 : n = 0
    · rw [h0] at hc
      rw [List.mem_singleton.mp hc]
      rfl
    · rw [natEmit, if_neg h0] at hc
      obtain ⟨d, hd10, rfl⟩ := natEmitAux_digits n n c hc
      exact (digitChar_facts hd10).1
  obtain ⟨ht, hd⟩ := takeWhile_append_split Char.isDigit (natEmit n) rest hall hrest
  unfold pNat
  simp only [ht, hd, natEmit_isEmpty_false, Bool.false_eq_true, if_false, foldl_natEmit]

/-- `pNumber` reads back an emitted integer when no digit follows. -/
theorem pNumber_intEmit (n : Int) (rest : List Char)
    (hrest : ∀ c cs, rest = c :: cs → c.isDigit = false) :
    pNumber (intEmit n ++ rest) = some (.num n, rest) := by
  by_cases hneg : n < 0
  · rw [intEmit, if_pos hneg]
    show pNumber ('-' :: (natEmit n.natAbs ++ rest)) = _
    have habs : -(n.natAbs : Int) = n := by omega
    simp [pNumber, pNat_natEmit n.natAbs rest hrest, habs]
    rw [abs_of_neg hneg, neg_neg]
  · rw [intEmit, if_neg hneg]
    obtain ⟨d, cs, hd10, hform⟩ := natEmit_head n.toNat
    rw [hform]
    show pNumber (Nat.digitChar d :: (cs ++ rest)) = _
    simp only [pNumber, if_neg (digitChar_facts hd10).2.2.2.2.2.2.2.2.2.2.2]
    rw [show Nat.digitChar d :: (cs ++ rest) = natEmit n.toNat ++ rest by rw [hform]; rfl]
    rw [pNat_natEmit n.toNat rest hrest]
    have htn : ((n.toNat : Int)) = n := Int.toNat_of_nonneg (by omega)
    simp [htn]

/-- `hexVal` inverts `hexDigitChar` below 16. -/
theorem hexVal_hexDigitChar {x : Nat} (h : x < 16) : hexVal (hexDigitChar x) = some x := by
  interval_cases x <;> rfl

/-- Unfolding `pStringChars` at a `\uXXXX` escape. -/
theorem pStringChars_u_eq (a b c2 d : Char) (rest3 : List Char) :
    pStringChars ('\\' :: 'u' :: a :: b :: c2 :: d :: rest3) =
      (match hexVal a, hexVal b, hexVal c2, hexVal d with
        | some va, some vb, some vc, some vd =>
          if (((va * 16 + vb) * 16 + vc) * 16 + vd).isValidChar then
            (pStringChars rest3).map
              (fun p => (Char.ofNat (((va * 16 + vb) * 16 + vc) * 16 + vd) :: p.1, p.2))
          else none
        | _, _, _, _ => none) := rfl

/-- Unfolding `pStringChars` at the closing quote. -/
theorem pStringChars_quote (rest : List Char) :
    pStringChars ('"' :: rest) = some ([], rest) := by
  conv_lhs => unfold pStringChars
  simp

/-- Unfolding `pStringChars` at an escaped quote. -/
theorem pStringChars_escQuote (rest : List Char) :
    pStringChars ('\\' :: '"' :: rest) =
      (pStringChars rest).map (fun p => ('"' :: p.1, p.2)) := by
  conv_lhs => unfold pStringChars
  simp

/-- Unfolding `pStringChars` at an escaped backslash. -/
theorem pStringChars_escBackslash (rest : List Char) :
    pStringChars ('\\' :: '\\' :: rest) =
      (pStringChars rest).map (fun p => ('\\' :: p.1, p.2)) := by
  conv_lhs => unfold pStringChars
  simp

/-- Unfolding `pStringChars` at an unescaped ordinary character. -/
theorem pStringChars_plain {c : Char} (rest : List Char) (h1 : c ≠ '"') (h2 : c ≠ '\\')
    (h3 : ¬(c.toNat < 32)) :
    pStringChars (c :: rest) = (pStringChars rest).map (fun p => (c :: p.1, p.2)) := by
  conv_lhs => unfold pStringChars
  rw [if_neg h1, if_neg h2, if_neg h3]

/-- The string-literal body parser inverts the escaper, consuming the closing
quote. -/
theorem pStringChars_escapeChars :
    ∀ (cs rest : List Char), pStringChars (escapeChars cs ++ '"' :: rest) = some (cs, rest) := by
  intro cs
  induction cs with
  | nil =>
    intro rest
    rw [show escapeChars [] ++ '"' :: rest = '"' :: rest from rfl]
    exact pStringChars_quote rest
  | cons c cs ih =>
    intro rest
    rw [show escapeChars (c :: cs) = escapeChar c ++ escapeChars cs from rfl,
      List.append_assoc]
    by_cases h1 : c = '"'
    · subst h1
      rw [show escapeChar '"' = ['\\', '"'] from rfl]
      show pStringChars ('\\' :: '"' :: (escapeChars cs ++ '"' :: rest)) = _
      rw [pStringChars_escQuote, ih]
      rfl
    · by_cases h2 : c = '\\'
      · subst h2
        rw [show escapeChar '\\' = ['\\', '\\'] from rfl]
        show pStringChars ('\\' :: '\\' :: (escapeChars cs ++ '"' :: rest)) = _
        rw [pStringChars_escBackslash, ih]
        rfl
      · by_cases h3 : c.toNat < 32
        · rw [show escapeChar c =
            ['\\', 'u', '0', '0', hexDigitChar (c.toNat / 16), hexDigitChar (c.toNat % 16)]
            from by rw [escapeChar, if_neg h1, if_neg h2, if_pos h3]]
          show pStringChars ('\\' :: 'u' :: '0' :: '0' :: hexDigitChar (c.toNat / 16) ::
            hexDigitChar (c.toNat % 16) :: (escapeChars cs ++ '"' :: rest)) = _
          rw [pStringChars_u_eq]
          have hv1 : hexVal (hexDigitChar (c.toNat / 16)) = some (c.toNat / 16) :=
            hexVal_hexDigitChar (by omega)
          have hv2 : hexVal (hexDigitChar (c.toNat % 16)) = some (c.toNat % 16) :=
            hexVal_hexDigitChar (Nat.mod_lt _ (by norm_num))
          rw [show hexVal '0' = some 0 from rfl, hv1, hv2]
          have hvv : ((0 * 16 + 0) * 16 + c.toNat / 16) * 16 + c.toNat % 16 = c.toNat := by
            omega
          simp only [hvv]
          rw [if_pos (Or.inl (by omega : c.toNat < 0xd800)), ih]
          simp
        · rw [show escapeChar c = [c] from by rw [escapeChar, if_neg h1, if_neg h2, if_neg h3]]
          show pStringChars (c :: (escapeChars cs ++ '"' :: rest)) = _
          rw [pStringChars_plain _ h1 h2 h3, ih]
          rfl

/-! ## Round trip of the canonical JSON encoding: value layer -/

/-- Every emitted value starts with a character that is not a list/object
delimiter. -/
theorem emit_cons (j : JSON) :
    ∃ c cs, JSON.emit j = c :: cs ∧ c ≠ ']' ∧ c ≠ '\x7d' := by
  cases j with
  | null => exact ⟨'n', _, rfl, by decide, by decide⟩
  | bool b => cases b <;> exact ⟨_, _, rfl, by decide, by decide⟩
  | num n =>
    by_cases hneg : n < 0
    · refine ⟨'-', natEmit n.natAbs, ?_, by decide, by decide⟩
      rw [show JSON.emit (.num n) = intEmit n from rfl, intEmit, if_pos hneg]
    · obtain ⟨d, cs, hd10, hform⟩ := natEmit_head n.toNat
      refine ⟨Nat.digitChar d, cs, ?_, (digitChar_facts hd10).2.2.2.2.2.2.2.2.1,
        (digitChar_facts hd10).2.2.2.2.2.2.2.2.2.1⟩
      rw [show JSON.emit (.num n) = intEmit n from rfl, intEmit, if_neg hneg, hform]
  | str s => exact ⟨'"', _, rfl, by decide, by decide⟩
  | arr xs => exact ⟨'[', _, rfl, by decide, by decide⟩
  | obj fs => exact ⟨'\x7b', _, rfl, by decide, by decide⟩

/-- An emitted element tail starts with `]` or `,`. -/
theorem emitTail_head (xs : List JSON) :
    ∃ t, JSON.emitTail xs = ']' :: t ∨ JSON.emitTail xs = ',' :: t := by
  cases xs with
  | nil => exact ⟨[], Or.inl rfl⟩
  | cons x xs => exact ⟨_, Or.inr rfl⟩

/-- An emitted member tail starts with `}` or `,`. -/
theorem emitMembersTail_head (fs : List (String × JSON)) :
    ∃ t, JSON.emitMembersTail fs = '\x7d' :: t ∨ JSON.emitMembersTail fs = ',' :: t := by
  cases fs with
  | nil => exact ⟨[], Or.inl rfl⟩
  | cons f fs => rcases f with ⟨k, v⟩; exact ⟨_, Or.inr rfl⟩

/-- Nothing an element tail continues with starts with a digit. -/
theorem notDigit_emitTail (xs : List JSON) (r2 : List Char) :
    ∀ c cs, JSON.emitTail xs ++ r2 = c :: cs → c.isDigit = false := by
  obtain ⟨t, h | h⟩ := emitTail_head xs <;>
    · rw [h]
      intro c cs hc
      cases hc
      rfl

/-- Nothing a member tail continues with starts with a digit. -/
theorem notDigit_emitMembersTail (fs : List (String × JSON)) (r2 : List Char) :
    ∀ c cs, JSON.emitMembersTail fs ++ r2 = c :: cs → c.isDigit = false := by
  obtain ⟨t, h | h⟩ := emitMembersTail_head fs <;>
    · rw [h]
      intro c cs hc
      cases hc
      rfl

/-- Parser fuel requirements are positive. -/
theorem costV_pos (j : JSON) : 1 ≤ costV j := by
  cases j <;> simp [costV]

/-- List fuel requirements are positive. -/
theorem costL_pos (xs : List JSON) : 1 ≤ costL xs := by
  cases xs <;> simp [costL]

/-- Member fuel requirements are positive. -/
theorem costM_pos (fs : List (String × JSON)) : 1 ≤ costM fs := by
  cases fs with
  | nil => simp [costM]
  | cons f fs => rcases f with ⟨k, v⟩; simp [costM]

/-- Unfolding `pValue` at a nonempty input. -/
theorem pValue_cons (fuel : Nat) (c : Char) (rest : List Char) :
    pValue (fuel + 1) (c :: rest) =
      (if c = 'n' then (expectChars ['u', 'l', 'l'] rest).map (fun r => (JSON.null, r))
      else if c = 't' then (expectChars ['r', 'u', 'e'] rest).map (fun r => (JSON.bool true, r))
      else if c = 'f' then
        (expectChars ['a', 'l', 's', 'e'] rest).map (fun r => (JSON.bool false, r))
      else if c = '"' then (pStringChars rest).map (fun p => (JSON.str ⟨p.1⟩, p.2))
      else if c = '[' then (pElems fuel rest).map (fun p => (JSON.arr p.1, p.2))
      else if c = '\x7b' then (pMembers fuel rest).map (fun p => (JSON.obj p.1, p.2))
      else if c = '-' ∨ c.isDigit then pNumber (c :: rest)
      else none) := by
  conv_lhs => unfold pValue

/-- The parser reads back every emitted value, element list and member list,
given fuel at least the cost of the term (the number case additionally needs
that no digit follows, which every emitted context guarantees). -/
theorem pAll : ∀ fuel : Nat,
    (∀ j rest, costV j ≤ fuel → (∀ c cs, rest = c :: cs → c.isDigit = false) →
      pValue fuel (JSON.emit j ++ rest) = some (j, rest)) ∧
    (∀ xs rest, costL xs ≤ fuel →
      pElems fuel (JSON.emitElems xs ++ rest) = some (xs, rest)) ∧
    (∀ xs rest, costL xs ≤ fuel →
      pElemsTail fuel (JSON.emitTail xs ++ rest) = some (xs, rest)) ∧
    (∀ fs rest, costM fs ≤ fuel →
      pMembers fuel (JSON.emitMembers fs ++ rest) = some (fs, rest)) ∧
    (∀ fs rest, costM fs ≤ fuel →
      pMembersTail fuel (JSON.emitMembersTail fs ++ rest) = some (fs, rest)) := by
  intro fuel
  induction fuel with
  | zero =>
    refine ⟨?_, ?_, ?_, ?_, ?_⟩
    · intro j rest hc _
      have := costV_pos j
      exact absurd hc (by omega)
    · intro xs rest hc
      have := costL_pos xs
      exact absurd hc (by omega)
    · intro xs rest hc
      have := costL_pos xs
      exact absurd hc (by omega)
    · intro fs rest hc
      have := costM_pos fs
      exact absurd hc (by omega)
    · intro fs rest hc
      have := costM_pos fs
      exact absurd hc (by omega)
  | succ fuel ih =>
    obtain ⟨ihP, ihQ, ihQT, ihR, ihRT⟩ := ih
    refine ⟨?_, ?_, ?_, ?_, ?_⟩
    · -- values
      intro j rest hc hnd
      cases j with
      | null =>
        rw [show JSON.emit .null ++ rest = 'n' :: 'u' :: 'l' :: 'l' :: rest from rfl]
        conv_lhs => unfold pValue
        simp [expectChars]
      | bool b =>
        cases b
        · rw [show JSON.emit (.bool false) ++ rest
            = 'f' :: 'a' :: 'l' :: 's' :: 'e' :: rest from rfl]
          conv_lhs => unfold pValue
          simp [expectChars]
        · rw [show JSON.emit (.bool true) ++ rest
            = 't' :: 'r' :: 'u' :: 'e' :: rest from rfl]
          conv_lhs => unfold pValue
          simp [expectChars]
      | num n =>
        by_cases hneg : n < 0
        · rw [show JSON.emit (.num n) = intEmit n from rfl, intEmit, if_pos hneg]
          rw [show ('-' :: natEmit n.natAbs) ++ rest
            = '-' :: (natEmit n.natAbs ++ rest) from rfl]
          rw [pValue_cons]
          rw [if_neg (by decide), if_neg (by decide), if_neg (by decide), if_neg (by decide),
            if_neg (by decide), if_neg (by decide), if_pos (Or.inl rfl)]
          rw [show '-' :: (natEmit n.natAbs ++ rest) = intEmit n ++ rest from by
            rw [intEmit, if_pos hneg]; rfl]
          exact pNumber_intEmit n rest hnd
        · rw [show JSON.emit (.num n) = intEmit n from rfl, intEmit, if_neg hneg]
          obtain ⟨d, cs, hd10, hform⟩ := natEmit_head n.toNat
          rw [hform,
            show (Nat.digitChar d :: cs) ++ rest = Nat.digitChar d :: (cs ++ rest) from rfl]
          rw [pValue_cons]
          obtain ⟨hdig, _, hn, ht, hf, hq, hlb, hob, _, _, _, hminus⟩ := digitChar_facts hd10
          rw [if_neg hn, if_neg ht, if_neg hf, if_neg hq, if_neg hlb, if_neg hob,
            if_pos (Or.inr hdig)]
          rw [show Nat.digitChar d :: (cs ++ rest) = intEmit n ++ rest from by
            rw [intEmit, if_neg hneg, hform]; rfl]
          exact pNumber_intEmit n rest hnd
      | str s =>
        rw [show JSON.emit (.str s) ++ rest
            = '"' :: (escapeChars s.data ++ '"' :: rest) from by
          show ('"' :: (escapeChars s.data ++ ['"'])) ++ rest = _
          simp]
        conv_lhs => unfold pValue
        simp [pStringChars_escapeChars]
      | arr xs =>
        have hcl : costL xs ≤ fuel := by
          simp only [costV] at hc
          omega
        rw [show JSON.emit (.arr xs) ++ rest = '[' :: (JSON.emitElems xs ++ rest) from rfl]
        conv_lhs => unfold pValue
        simp [ihQ xs rest hcl]
      | obj fs =>
        have hcm : costM fs ≤ fuel := by
          simp only [costV] at hc
          omega
        rw [show JSON.emit (.obj fs) ++ rest = '\x7b' :: (JSON.emitMembers fs ++ rest) from rfl]
        conv_lhs => unfold pValue
        simp [ihR fs rest hcm]
    · -- element lists after `[`
      intro xs rest hc
      cases xs with
      | nil =>
        rw [show JSON.emitElems [] ++ rest = ']' :: rest from rfl]
        conv_lhs => unfold pElems
        simp
      | cons x xs2 =>
        have hmax : max (costV x) (costL xs2) ≤ fuel := by
          simp only [costL] at hc
          omega
        have h1 : costV x ≤ fuel := le_trans (Nat.le_max_left _ _) hmax
        have h2 : costL xs2 ≤ fuel := le_trans (Nat.le_max_right _ _) hmax
        have hv := ihP x (JSON.emitTail xs2 ++ rest) h1 (notDigit_emitTail xs2 rest)
        have ht := ihQT xs2 rest h2
        rw [show JSON.emitElems (x :: xs2) ++ rest
            = JSON.emit x ++ (JSON.emitTail xs2 ++ rest) from by
          show (JSON.emit x ++ JSON.emitTail xs2) ++ rest = _
          simp]
        conv_lhs => unfold pElems
        obtain ⟨c, cs, hform, hc1, hc2⟩ := emit_cons x
        rw [show JSON.emit x ++ (JSON.emitTail xs2 ++ rest)
            = c :: (cs ++ (JSON.emitTail xs2 ++ rest)) from by rw [hform]; rfl]
        rw [if_neg (by simp [hc1])]
        rw [show c :: (cs ++ (JSON.emitTail xs2 ++ rest))
            = JSON.emit x ++ (JSON.emitTail xs2 ++ rest) from by rw [hform]; rfl]
        rw [hv]
        simp [ht]
    · -- element tails
      intro xs rest hc
      cases xs with
      | nil =>
        rw [show JSON.emitTail [] ++ rest = ']' :: rest from rfl]
        conv_lhs => unfold pElemsTail
        simp
      | cons x xs2 =>
        have hmax : max (costV x) (costL xs2) ≤ fuel := by
          simp only [costL] at hc
          omega
        have h1 : costV x ≤ fuel := le_trans (Nat.le_max_left _ _) hmax
        have h2 : costL xs2 ≤ fuel := le_trans (Nat.le_max_right _ _) hmax
        have hv := ihP x (JSON.emitTail xs2 ++ rest) h1 (notDigit_emitTail xs2 rest)
        have ht := ihQT xs2 rest h2
        rw [show JSON.emitTail (x :: xs2) ++ rest
            = ',' :: (JSON.emit x ++ (JSON.emitTail xs2 ++ rest)) from by
          show (',' :: (JSON.emit x ++ JSON.emitTail xs2)) ++ rest = _
          simp]
        conv_lhs => unfold pElemsTail
        simp only [List.head?_cons, List.tail_cons, if_true]
        rw [hv]
        simp [ht]
    · -- member lists after the opening brace
      intro fs rest hc
      cases fs with
      | nil =>
        rw [show JSON.emitMembers [] ++ rest = '\x7d' :: rest from rfl]
        conv_lhs => unfold pMembers
        simp
      | cons f fs2 =>
        rcases f with ⟨k, v⟩
        have hmax : max (costV v) (costM fs2) ≤ fuel := by
          simp only [costM] at hc
          omega
        have h1 : costV v ≤ fuel := le_trans (Nat.le_max_left _ _) hmax
        have h2 : costM fs2 ≤ fuel := le_trans (Nat.le_max_right _ _) hmax
        have hv := ihP v (JSON.emitMembersTail fs2 ++ rest) h1
          (notDigit_emitMembersTail fs2 rest)
        have ht := ihRT fs2 rest h2
        rw [show JSON.emitMembers ((k, v) :: fs2) ++ rest
            = '"' :: (escapeChars k.data ++ '"' ::
                (':' :: (JSON.emit v ++ (JSON.emitMembersTail fs2 ++ rest)))) from by
          show (emitString k ++ ':' :: (JSON.emit v ++ JSON.emitMembersTail fs2)) ++ rest = _
          show (('"' :: (escapeChars k.data ++ ['"'])) ++
            ':' :: (JSON.emit v ++ JSON.emitMembersTail fs2)) ++ rest = _
          simp]
        conv_lhs => unfold pMembers
        simp only [List.head?_cons, List.tail_cons, if_true]
        rw [pStringChars_escapeChars]
        simp [hv, ht]
    · -- member tails
      intro fs rest hc
      cases fs with
      | nil =>
        rw [show JSON.emitMembersTail [] ++ rest = '\x7d' :: rest from rfl]
        conv_lhs => unfold pMembersTail
        simp
      | cons f fs2 =>
        rcases f with ⟨k, v⟩
        have hmax : max (costV v) (costM fs2) ≤ fuel := by
          simp only [costM] at hc
          omega
        have h1 : costV v ≤ fuel := le_trans (Nat.le_max_left _ _) hmax
        have h2 : costM fs2 ≤ fuel := le_trans (Nat.le_max_right _ _) hmax
        have hv := ihP v (JSON.emitMembersTail fs2 ++ rest) h1
          (notDigit_emitMembersTail fs2 rest)
        have ht := ihRT fs2 rest h2
        rw [show JSON.emitMembersTail ((k, v) :: fs2) ++ rest
            = ',' :: ('"' :: (escapeChars k.data ++ '"' ::
                (':' :: (JSON.emit v ++ (JSON.emitMembersTail fs2 ++ rest))))) from by
          show (',' :: (emitString k ++ ':' :: (JSON.emit v ++ JSON.emitMembersTail fs2)))
              ++ rest = _
          show (',' :: (('"' :: (escapeChars k.data ++ ['"'])) ++
            ':' :: (JSON.emit v ++ JSON.emitMembersTail fs2))) ++ rest = _
          simp]
        conv_lhs => unfold pMembersTail
        simp only [List.head?_cons, List.tail_cons, if_true]
        rw [pStringChars_escapeChars]
        simp [hv, ht]

mutual

/-- The fuel a value needs is at most the length of its encoding. -/
theorem costV_le_emit : ∀ j : JSON, costV j ≤ (JSON.emit j).length
  | .null => by simp [costV, JSON.emit]
  | .bool b => by cases b <;> simp [costV, JSON.emit]
  | .num n => by
    simp only [costV]
    by_cases hneg : n < 0
    · rw [show JSON.emit (.num n) = intEmit n from rfl, intEmit, if_pos hneg]
      simp
    · rw [show JSON.emit (.num n) = intEmit n from rfl, intEmit, if_neg hneg]
      obtain ⟨d, cs, _, hform⟩ := natEmit_head n.toNat
      rw [hform]
      simp
  | .str s => by
    simp only [costV, show JSON.emit (.str s) = emitString s from rfl, emitString,
      List.length_cons]
    omega
  | .arr xs => by
    have h := costL_le_emitElems xs
    simp only [costV, show JSON.emit (.arr xs) = '[' :: JSON.emitElems xs from rfl,
      List.length_cons]
    omega
  | .obj fs => by
    have h := costM_le_emitMembers fs
    simp only [costV, show JSON.emit (.obj fs) = '\x7b' :: JSON.emitMembers fs from rfl,
      List.length_cons]
    omega

/-- The fuel an element list needs is at most the length of its encoding. -/
theorem costL_le_emitElems : ∀ xs : List JSON, costL xs ≤ (JSON.emitElems xs).length
  | [] => by simp [costL, JSON.emitElems]
  | x :: xs2 => by
    have h1 := costV_le_emit x
    have h2 := costL_le_emitTail xs2
    obtain ⟨c, cs, hform, _, _⟩ := emit_cons x
    have h4 : 1 ≤ (JSON.emit x).length := by rw [hform]; simp
    have h5 : 1 ≤ (JSON.emitTail xs2).length := by
      obtain ⟨t, h | h⟩ := emitTail_head xs2 <;> rw [h] <;> simp
    have hm : max (costV x) (costL xs2) ≤
        (JSON.emit x).length + (JSON.emitTail xs2).length - 1 :=
      Nat.max_le.mpr ⟨by omega, by omega⟩
    simp only [costL,
      show JSON.emitElems (x :: xs2) = JSON.emit x ++ JSON.emitTail xs2 from rfl,
      List.length_append]
    omega

/-- The fuel an element tail needs is at most the length of its encoding. -/
theorem costL_le_emitTail : ∀ xs : List JSON, costL xs ≤ (JSON.emitTail xs).length
  | [] => by simp [costL, JSON.emitTail]
  | x :: xs2 => by
    have h1 := costV_le_emit x
    have h2 := costL_le_emitTail xs2
    have hm : max (costV x) (costL xs2) ≤
        (JSON.emit x).length + (JSON.emitTail xs2).length :=
      Nat.max_le.mpr ⟨by omega, by omega⟩
    simp only [costL,
      show JSON.emitTail (x :: xs2) = ',' :: (JSON.emit x ++ JSON.emitTail xs2) from rfl,
      List.length_cons, List.length_append]
    omega

/-- The fuel a member list needs is at most the length of its encoding. -/
theorem costM_le_emitMembers : ∀ fs : List (String × JSON), costM fs ≤ (JSON.emitMembers fs).length
  | [] => by simp [costM, JSON.emitMembers]
  | (k, v) :: fs2 => by
    have h1 := costV_le_emit v
    have h2 := costM_le_emitMembersTail fs2
    have hm : max (costV v) (costM fs2) ≤
        (JSON.emit v).length + (JSON.emitMembersTail fs2).length :=
      Nat.max_le.mpr ⟨by omega, by omega⟩
    simp only [costM,
      show JSON.emitMembers ((k, v) :: fs2)
        = emitString k ++ ':' :: (JSON.emit v ++ JSON.emitMembersTail fs2) from rfl,
      List.length_append, List.length_cons]
    omega

/-- The fuel a member tail needs is at most the length of its encoding. -/
theorem costM_le_emitMembersTail :
    ∀ fs : List (String × JSON), costM fs ≤ (JSON.emitMembersTail fs).length
  | [] => by simp [costM, JSON.emitMembersTail]
  | (k, v) :: fs2 => by
    have h1 := costV_le_emit v
    have h2 := costM_le_emitMembersTail fs2
    have hm : max (costV v) (costM fs2) ≤
        (JSON.emit v).length + (JSON.emitMembersTail fs2).length :=
      Nat.max_le.mpr ⟨by omega, by omega⟩
    simp only [costM,
      show JSON.emitMembersTail ((k, v) :: fs2)
        = ',' :: (emitString k ++ ':' :: (JSON.emit v ++ JSON.emitMembersTail fs2)) from rfl,
      List.length_cons, List.length_append]
    omega

end

/-- `JSON.parse` inverts `JSON.stringify` on every value. -/
theorem parse_stringify (j : JSON) : JSON.parse (JSON.stringify j) = some j := by
  unfold JSON.parse JSON.stringify
  have h := (pAll ((JSON.emit j).length + 1)).1 j []
    (le_trans (costV_le_emit j) (Nat.le_succ _))
    (fun c cs hcc => absurd hcc (by simp))
  rw [List.append_nil] at h
  rw [show (String.mk (JSON.emit j)).length = (JSON.emit j).length from rfl,
    show (String.mk (JSON.emit j)).data = JSON.emit j from rfl, h]

/-- C4. For every event and every subscription list `A`, calling
`Destination.onEvent` with `settings.subscriptions` set to the JSON-encoded
string of `A` yields exactly the same result (and the same context) as
calling it with `settings.subscriptions` set to the already-parsed array
`A` — for every destination, private-key list and completion order. -/
theorem c4_string_and_array_settings_agree (d : Destination) (ctx : Context)
    (event : JSONObject) (A : List JSON) (rest : JSONObject) (priv : JSONArray)
    (sched : List Nat) :
    d.onEvent ctx event (("subscriptions", .str (JSON.stringify (.arr A))) :: rest) priv sched
      = d.onEvent ctx event (("subscriptions", .arr A) :: rest) priv sched := by
  have hget1 : getSubscriptions (("subscriptions", .str (JSON.stringify (.arr A))) :: rest)
      = .ok (some (.arr A)) := by
    simp [getSubscriptions, jlookup, parse_stringify]
  have hget2 : getSubscriptions (("subscriptions", .arr A) :: rest) = .ok (some (.arr A)) := by
    simp [getSubscriptions, jlookup]
  have hdest : getDestinationSettings (("subscriptions", .str (JSON.stringify (.arr A))) :: rest)
      = getDestinationSettings (("subscriptions", .arr A) :: rest) := by
    simp [getDestinationSettings, List.filter_cons]
  simp only [Destination.onEvent, hget1, hget2, hdest]

end SegmentCore
